import Mathlib

/-!
Verification of the anilist-cmp service core (src/anilist-cmp/__init__.py and
src/anilist-cmp/types_/responses.py) against its specification.

The Python code is shallowly embedded below.  Python `dict`s keyed by media id
are represented as association lists with unique keys built by `dictSet`
(in-place overwrite, insertion order preserved); Python `set`s are represented
by insertion-order deduplicated lists (`pySet`, a deterministic representative
of the unordered set); Python exceptions (`IndexError` from `users[index]`,
`EmptyAnimeList`) are represented with `Option`/`Except`; Python's `//` floor
division on `int` is `Int.fdiv`; `str.lower` is modelled for the ASCII range,
which covers AniList usernames and the status names used here.
-/

deriving instance DecidableEq for Except

/-! ### Python primitive models -/

/-- Model of `str.lower` on the ASCII range (`Char.toLower` lowers `A`-`Z`). -/
def pyLower (s : String) : String :=
  String.mk (s.data.map Char.toLower)

/-- Helper for `pySet`: left fold keeping the first occurrence of each element. -/
def pySetAux : List String → List String → List String
  | [], acc => acc
  | x :: rest, acc => if x ∈ acc then pySetAux rest acc else pySetAux rest (acc ++ [x])

/-- Model of `set(xs)` (and of `list({...})`): deduplication keeping first
occurrences.  CPython iterates a set in an unspecified order; this is one
deterministic representative, and nothing proved below depends on the order. -/
def pySet (l : List String) : List String :=
  pySetAux l []

/-- Model of Python sequence indexing `xs[i]`: non-negative indices from the
front, negative indices from the back, `none` models a raised `IndexError`. -/
def pyIndex {α : Type} (xs : List α) (i : Int) : Option α :=
  if 0 ≤ i then xs[i.toNat]?
  else if -i ≤ (xs.length : Int) then xs[xs.length - (-i).toNat]? else none

/-- Helper for `pySplitlines`. -/
def pySplitlinesAux : List Char → List Char → List String
  | [], [] => []
  | [], acc => [String.mk acc.reverse]
  | '\n' :: rest, acc => String.mk acc.reverse :: pySplitlinesAux rest []
  | c :: rest, acc => pySplitlinesAux rest (c :: acc)

/-- Model of `str.splitlines()` for strings whose only line terminator is
`'\n'` (the only terminator occurring in the query templates): split at each
newline, no trailing empty line when the string ends with a newline. -/
def pySplitlines (s : String) : List String :=
  pySplitlinesAux s.data []

/-- Helper for `pyFormatNumber`: one pass over the template, rewriting `{{`,
`}}` and the `{number}` placeholder exactly as `str.format(number=arg)` does
on the `USER_QUERY` template. -/
def pyFormatNumberAux (arg : String) : List Char → List Char
  | '\x7b' :: '\x7b' :: rest => '\x7b' :: pyFormatNumberAux arg rest
  | '\x7d' :: '\x7d' :: rest => '\x7d' :: pyFormatNumberAux arg rest
  | '\x7b' :: 'n' :: 'u' :: 'm' :: 'b' :: 'e' :: 'r' :: '\x7d' :: rest =>
      arg.data ++ pyFormatNumberAux arg rest
  | c :: rest => c :: pyFormatNumberAux arg rest
  | [] => []

/-- Model of `template.format(number=arg)` for templates whose only
replacement field is `{number}`. -/
def pyFormatNumber (template arg : String) : String :=
  String.mk (pyFormatNumberAux arg template.data)

/-- Decimal digit character list of a natural number; proof-side companion of
`Nat.toDigits 10`, used to prove `Nat.repr` injective. -/
def decDigits (n : Nat) : List Char :=
  if _h : n < 10 then [Nat.digitChar n]
  else decDigits (n / 10) ++ [Nat.digitChar (n % 10)]
termination_by n
decreasing_by exact Nat.div_lt_self (by omega) (by omega)

/-- Numeric value of a decimal digit character. -/
def decCharVal (c : Char) : Nat := c.toNat - 48

/-- Parse a decimal digit character list back to a number. -/
def ofDec (l : List Char) : Nat := l.foldl (fun acc c => acc * 10 + decCharVal c) 0

/-! ### Data model (src/anilist-cmp/types_/responses.py) -/

/-- `LocalizedTitle`: three nullable display strings. -/
structure LocalizedTitle where
  romaji : Option String
  english : Option String
  native : Option String
deriving DecidableEq

/-- `InnerMediaEntry`: media identifier, localized title, canonical URL. -/
structure InnerMediaEntry where
  id : Int
  title : LocalizedTitle
  siteUrl : String
deriving DecidableEq

/-- `MediaEntry`: wrapper holding the `media` record. -/
structure MediaEntry where
  media : InnerMediaEntry
deriving DecidableEq

/-- `MediaListEntry`: one list of a user's collection, with its entries. -/
structure MediaListEntry where
  entries : List MediaEntry
deriving DecidableEq

/-- `MediaListCollection`: a user's list-of-lists for the requested status. -/
structure MediaListCollection where
  lists : List MediaListEntry
deriving DecidableEq

/-- `AnilistErrorLocation`: source location of a GraphQL error. -/
structure AnilistErrorLocation where
  line : Int
  column : Int
deriving DecidableEq

/-- `AnilistError`: message, numeric status and source locations. -/
structure AnilistError where
  message : String
  status : Int
  locations : List AnilistErrorLocation
deriving DecidableEq

/-- The parsed upstream JSON as the handlers see it: `errors` is
`data.get("errors")` (absent key modelled as `none`), `data` is
`data["data"].values()` in key insertion order, with `null` blocks as `none`. -/
structure PyResponse where
  errors : Option (List AnilistError)
  data : List (Option MediaListCollection)
deriving DecidableEq

/-! ### The Status enum -/

/-- The six-member `Status` enum. -/
inductive Status where
  | planning
  | current
  | completed
  | dropped
  | paused
  | repeating
deriving DecidableEq

/-- `Status.value`: the upstream wire value of each member. -/
def Status.value : Status → String
  | .planning => "PLANNING"
  | .current => "CURRENT"
  | .completed => "COMPLETED"
  | .dropped => "DROPPED"
  | .paused => "PAUSED"
  | .repeating => "REPEATING"

/-- `Status.name`: the Python enum member name. -/
def Status.name : Status → String
  | .planning => "planning"
  | .current => "current"
  | .completed => "completed"
  | .dropped => "dropped"
  | .paused => "paused"
  | .repeating => "repeating"

/-- Iteration order of the `Status` enum (definition order). -/
def statusMembers : List Status :=
  [.planning, .current, .completed, .dropped, .paused, .repeating]

/-- Model of `Status[key]`: lookup by member name. -/
def statusByName (key : String) : Option Status :=
  statusMembers.find? (fun st => st.name = key)

/-- Model of `Status[text.lower()]`, the status resolution used by both
handlers. -/
def resolveStatus (text : String) : Option Status :=
  statusByName (pyLower text)

/-! ### Username validation -/

/-- The validation failures raised by `_parse_users`. -/
inductive APIErr where
  | tooLittleUsers
  | invalidUsername (user : String)
deriving DecidableEq

/-- Model of `str.isalnum()` on the ASCII range: non-empty and all
alphanumeric. -/
def pyIsAlnum (s : String) : Bool :=
  !s.data.isEmpty && s.data.all Char.isAlphanum

/-- `_parse_users`: raise `TooLittleUsers` when `len(set(users)) < 2`, then
raise `InvalidAniListUsername` on the first user that is not alphanumeric or
is longer than 20 characters. -/
def _parse_users (users : List String) : Except APIErr Unit :=
  if (pySet users).length < 2 then .error .tooLittleUsers
  else
    match users.find? (fun u => !(pyIsAlnum u && u.length ≤ 20)) with
    | some u => .error (.invalidUsername u)
    | none => .ok ()

/-- `get_matches` line 232: `list({user.lower() for user in usernames})`. -/
def get_matches_users (usernames : List String) : List String :=
  pySet (usernames.map pyLower)

/-- The validation pipeline of `get_matches`: case-fold, deduplicate, then
`_parse_users`. -/
def get_matches_validate (usernames : List String) : Except APIErr Unit :=
  _parse_users (get_matches_users usernames)

/-! ### Query builder (`USER_QUERY`, `QUERY`, `_fetch_user_entries`) -/

/-- The `USER_QUERY` template string (braces written as escapes). -/
def USER_QUERY : String :=
  "\nuser\x7bnumber\x7d: MediaListCollection(userName: $username\x7bnumber\x7d, status: $status, type: ANIME) \x7b\x7b\n    lists \x7b\x7b\n        entries \x7b\x7b\n            media \x7b\x7b\n                id\n                title \x7b\x7b\n                    romaji\n                    english\n                    native\n                \x7d\x7d\n                siteUrl\n            \x7d\x7d\n        \x7d\x7d\n    \x7d\x7d\n\x7d\x7d\n"

/-- `", ".join(f"$username{n}: String" for n in range(len(usernames)))`. -/
def buildParameters (n : Nat) : String :=
  String.intercalate ", " ((List.range n).map (fun i => "$username" ++ Nat.repr i ++ ": String"))

/-- `"".join(USER_QUERY.format(number=n) for n in range(len(usernames)))`. -/
def buildSubqueries (n : Nat) : String :=
  String.join ((List.range n).map (fun i => pyFormatNumber USER_QUERY (Nat.repr i)))

/-- The query text built by `_fetch_user_entries`:
`QUERY.format(parameters=..., subqueries=...)` with the `QUERY` template
`"\nquery ({parameters}, $status: MediaListStatus) {{\n    {subqueries}\n}}\n"`
hand-applied. -/
def _fetch_user_entries_query (usernames : List String) : String :=
  "\nquery (" ++ buildParameters usernames.length ++ ", $status: MediaListStatus) \x7b\n    "
    ++ buildSubqueries usernames.length ++ "\n\x7d\n"

/-- The variables mapping built by `_fetch_user_entries`:
`{f"username{n}": name for n, name in enumerate(usernames)}` updated with
`status=status.value`.  All keys are distinct, so the association list is a
faithful dict model. -/
def _fetch_user_entries_variables (usernames : List String) (status : Status) :
    List (String × String) :=
  (usernames.enum.map (fun p => ("username" ++ Nat.repr p.1, p.2))) ++ [("status", status.value)]

/-- First-match lookup in a variables mapping (dict lookup; keys distinct). -/
def lookupVar (vars : List (String × String)) (key : String) : Option String :=
  (vars.find? (fun p => p.1 = key)).map Prod.snd

/-! ### Error mapper (`_handle_errors`) -/

/-- `len(USER_QUERY.splitlines())`: the divisor used by `_handle_errors`. -/
def linesPerBlock : Nat :=
  (pySplitlines USER_QUERY).length

/-- Inner loop of `_handle_errors` over one error's locations:
`line = location["line"] - 4; index = line // len(USER_QUERY.splitlines());`
`missing_users.append(users[index])`.  A `none` result models an uncaught
`IndexError` from `users[index]`. -/
def handleErrorLocations (users : List String) (locs : List AnilistErrorLocation)
    (acc : List String) : Option (List String) :=
  match locs with
  | [] => some acc
  | loc :: rest =>
    match pyIndex users (Int.fdiv (loc.line - 4) (linesPerBlock : Int)) with
    | none => none
    | some u => handleErrorLocations users rest (acc ++ [u])

/-- Outer loop of `_handle_errors` over the error list, keeping only errors
with message `"User not found"` and status `404`. -/
def handleErrorsAux (users : List String) (errors : List AnilistError)
    (acc : List String) : Option (List String) :=
  match errors with
  | [] => some acc
  | err :: rest =>
    if err.message = "User not found" ∧ err.status = 404 then
      match handleErrorLocations users err.locations acc with
      | none => none
      | some acc2 => handleErrorsAux users rest acc2
    else handleErrorsAux users rest acc

/-- `_handle_errors(errors, *users)`. -/
def _handle_errors (errors : List AnilistError) (users : List String) : Option (List String) :=
  handleErrorsAux users errors []

/-- Spec-side mapper (section 4.5 of the spec), for one error's locations:
for each source location compute
`userIndex = (location.line - fixedHeaderLineCount) div linesPerSubqueryBlock`
and append `users[userIndex]`. -/
def specMapLocations (users : List String) : List AnilistErrorLocation → Option (List String)
  | [] => some []
  | loc :: rest =>
    match pyIndex users (Int.fdiv (loc.line - 4) (linesPerBlock : Int)),
        specMapLocations users rest with
    | some u, some l => some (u :: l)
    | _, _ => none

/-- Spec-side error mapper: the concatenation, over the errors whose message
is exactly `"User not found"` with status `404`, of the per-location
attributed usernames. -/
def specMapErrors (users : List String) : List AnilistError → Option (List String)
  | [] => some []
  | err :: rest =>
    if err.message = "User not found" ∧ err.status = 404 then
      match specMapLocations users err.locations, specMapErrors users rest with
      | some l1, some l2 => some (l1 ++ l2)
      | _, _ => none
    else specMapErrors users rest

/-! ### Result aggregator (`_restructure_entries`, `_get_common_anime`) -/

/-- A Python dict keyed by media id, as an association list with unique keys. -/
abbrev PyDict := List (Int × InnerMediaEntry)

/-- `k in d`. -/
def hasKey (d : PyDict) (k : Int) : Bool :=
  d.any (fun p => p.1 = k)

/-- `d[k]` as an `Option` (keys are unique, so first match is the value). -/
def dictGet (d : PyDict) (k : Int) : Option InnerMediaEntry :=
  (d.find? (fun p => p.1 = k)).map Prod.snd

/-- `d[k] = v`: overwrite in place when the key exists, else append. -/
def dictSet (d : PyDict) (k : Int) (v : InnerMediaEntry) : PyDict :=
  if hasKey d k then d.map (fun p => if p.1 = k then (k, v) else p) else d ++ [(k, v)]

/-- `_restructure_entries`: `{entry["media"]["id"]: entry["media"] for entry in entries}`. -/
def _restructure_entries (entries : List MediaEntry) : PyDict :=
  entries.foldl (fun d e => dictSet d e.media.id e.media) []

/-- The truthiness check `not item or not item["lists"]`, negated: a block
passes when it is non-null and its list-of-lists is non-empty. -/
def blockOk : Option MediaListCollection → Bool
  | none => false
  | some coll => !coll.lists.isEmpty

/-- The per-user dict `_restructure_entries(item["lists"][0]["entries"])`
(junk value `[]` for blocks that fail `blockOk`; those raise instead). -/
def dictOfBlock : Option MediaListCollection → PyDict
  | none => []
  | some coll =>
    match coll.lists with
    | [] => []
    | l0 :: _ => _restructure_entries l0.entries

/-- Loop of `_get_common_anime`: build each user's dict in order, raising
`EmptyAnimeList(index)` at the first block failing the truthiness check. -/
def buildMediaEntries (data : List (Option MediaListCollection)) (index : Nat) :
    Except Nat (List PyDict) :=
  match data with
  | [] => .ok []
  | item :: rest =>
    if blockOk item then
      match buildMediaEntries rest (index + 1) with
      | .error i => .error i
      | .ok ds => .ok (dictOfBlock item :: ds)
    else .error index

/-- `ChainMap(*media_entries)[k]`: first dict containing the key wins. -/
def chainGet (ds : List PyDict) (k : Int) : Option InnerMediaEntry :=
  match ds with
  | [] => none
  | d :: rest =>
    match dictGet d k with
    | some v => some v
    | none => chainGet rest k

/-- `set(all_anime).intersection(*media_entries)` as a deduplicated key list:
all keys of the chain map, kept when present in every per-user dict. -/
def commonKeys (ds : List PyDict) : List Int :=
  ((ds.map (fun d => d.map Prod.fst)).flatten.dedup).filter (fun k => ds.all (fun d => hasKey d k))

/-- `{id_: all_anime[id_] for id_ in common_anime}`. -/
def commonResult (ds : List PyDict) : PyDict :=
  (commonKeys ds).filterMap (fun k => (chainGet ds k).map (fun v => (k, v)))

/-- `_get_common_anime`: either the intersection dict or the raised
`EmptyAnimeList` index. -/
def _get_common_anime (data : List (Option MediaListCollection)) : Except Nat PyDict :=
  match buildMediaEntries data 0 with
  | .error i => .error i
  | .ok ds => .ok (commonResult ds)

/-- Observation: whether a media id is a key of one user's per-user mapping. -/
def blockHasId (item : Option MediaListCollection) (k : Int) : Bool :=
  hasKey (dictOfBlock item) k

/-- Observation: one user's per-user mapping looked up at a media id. -/
def blockGet (item : Option MediaListCollection) (k : Int) : Option InnerMediaEntry :=
  dictGet (dictOfBlock item) k

/-- The only part of a block that `_get_common_anime` inspects: nullness and
the first element (if any) of the list-of-lists. -/
def blockShape (item : Option MediaListCollection) : Option (Option MediaListEntry) :=
  item.map (fun coll => coll.lists.head?)

/-- Decidable check that two per-user mappings agree wherever their keys
overlap (used to discharge value-consistency hypotheses on concrete data). -/
def dictsAgree (d1 d2 : PyDict) : Bool :=
  d1.all (fun p => !hasKey d2 p.1 || dictGet d2 p.1 == some p.2)

/-! ### HTTP layer outcome models -/

/-- A rendered response body: plain text or an HTML template page. -/
inductive Body where
  | text (s : String)
  | template (templateName : String)
deriving DecidableEq

/-- The part of the `get_matches` handler that runs once the upstream response
has arrived (lines 249-281): status code and body of the rendered response.
`none` models an exception escaping the handler.  The `Template` branch
renders with the default status code 200. -/
def get_matches_render (users : List String) (selected_status : Status) (resp : PyResponse) :
    Option (Nat × Body) :=
  match resp.errors with
  | some (e :: es) =>
    match _handle_errors (e :: es) users with
    | none => none
    | some errored =>
      some (404, .text ("Sorry, it seems that user(s) " ++ String.intercalate ", " errored
        ++ " are not found."))
  | _ =>
    match _get_common_anime resp.data with
    | .error i =>
      match users[i]? with
      | none => none
      | some u =>
        some (404, .text ("Sorry, but " ++ u ++ " has no " ++ pyLower selected_status.value
          ++ " entries!"))
    | .ok m =>
      if m.isEmpty then
        some (404, .text ("No " ++ pyLower selected_status.value ++ " anime in common :("))
      else some (200, .template "page.html")

/-- The JSON payload returned by `get_matches_headless` when the status lookup
raises `KeyError` (lines 181-186).  The `"error"` string in the source is a
plain literal (no `f` prefix), so it is a constant independent of the
offending input. -/
structure HeadlessStatusPayload where
  error : String
  accepted_statuses : List String
deriving DecidableEq

/-- The invalid-status payload of `get_matches_headless`; `_dataStatus` is the
offending input, which the source's constant message never interpolates. -/
def headlessInvalidStatusPayload (_dataStatus : String) : HeadlessStatusPayload :=
  { error := "Invalid status provided: \x7bdata.status!r\x7d"
    accepted_statuses := statusMembers.map Status.name }

/-! ### Concrete fixtures used by witnesses and counterexamples -/

/-- A sample media entry with the given id. -/
def sampleEntry (i : Int) : MediaEntry :=
  ⟨⟨i, ⟨some "romaji", none, none⟩, "https://anilist.co/anime/1"⟩⟩

/-- A sample non-null block whose list-of-lists has a single list holding the
given entries. -/
def sampleBlock (es : List MediaEntry) : Option MediaListCollection :=
  some ⟨[⟨es⟩]⟩

/-- Two per-user blocks with disjoint media ids. -/
def sampleDisjointData : List (Option MediaListCollection) :=
  [sampleBlock [sampleEntry 1], sampleBlock [sampleEntry 2]]

/-- The reversal of `sampleDisjointData`. -/
def sampleDisjointDataSwapped : List (Option MediaListCollection) :=
  [sampleBlock [sampleEntry 2], sampleBlock [sampleEntry 1]]

/-- Data whose first user's filtered list is empty (`lists` is `[]`). -/
def sampleEmptyFirstData : List (Option MediaListCollection) :=
  [some ⟨[]⟩, sampleBlock [sampleEntry 2]]

/-- A block with one list holding entry 1, and a second list holding entry 9. -/
def sampleTwoListsData : List (Option MediaListCollection) :=
  [some ⟨[⟨[sampleEntry 1]⟩, ⟨[sampleEntry 9]⟩]⟩]

/-- The same block with the second list dropped. -/
def sampleOneListData : List (Option MediaListCollection) :=
  [some ⟨[⟨[sampleEntry 1]⟩]⟩]

/-- A 404 `"User not found"` error at the given source line. -/
def sampleNotFound (line : Int) : AnilistError :=
  ⟨"User not found", 404, [⟨line, 13⟩]⟩

/-! ### Lemmas about `pySet` -/

theorem pySetAux_mem (l : List String) : ∀ (acc : List String) (x : String),
    x ∈ pySetAux l acc ↔ x ∈ acc ∨ x ∈ l := by
  induction l with
  | nil => intro acc x; simp [pySetAux]
  | cons y rest ih =>
    intro acc x
    by_cases hy : y ∈ acc
    · rw [pySetAux, if_pos hy, ih]
      constructor
      · rintro (h | h)
        · exact Or.inl h
        · exact Or.inr (List.mem_cons_of_mem _ h)
      · rintro (h | h)
        · exact Or.inl h
        · rcases List.mem_cons.mp h with rfl | h
          · exact Or.inl hy
          · exact Or.inr h
    · rw [pySetAux, if_neg hy, ih]
      simp only [List.mem_append, List.mem_singleton, List.mem_cons]
      tauto

theorem pySetAux_nodup (l : List String) : ∀ (acc : List String), acc.Nodup →
    (pySetAux l acc).Nodup := by
  induction l with
  | nil => intro acc h; exact h
  | cons y rest ih =>
    intro acc h
    by_cases hy : y ∈ acc
    · rw [pySetAux, if_pos hy]; exact ih acc h
    · rw [pySetAux, if_neg hy]
      refine ih (acc ++ [y]) ?_
      simp [List.nodup_append, h, hy]

theorem pySetAux_of_nodup (l : List String) : ∀ (acc : List String), (acc ++ l).Nodup →
    pySetAux l acc = acc ++ l := by
  induction l with
  | nil => intro acc _; simp [pySetAux]
  | cons y rest ih =>
    intro acc h
    have hy : y ∉ acc := by
      intro hmem
      rcases (List.nodup_append.mp h).2.2 hmem with h2
      exact h2 (List.mem_cons_self y rest)
    rw [pySetAux, if_neg hy, ih (acc ++ [y]) (by simpa using h)]
    simp

theorem pySet_nodup (l : List String) : (pySet l).Nodup :=
  pySetAux_nodup l [] List.nodup_nil

theorem pySet_idem (l : List String) : pySet (pySet l) = pySet l := by
  have := pySetAux_of_nodup (pySet l) [] (by simpa using pySet_nodup l)
  simpa [pySet] using this

/-! ### Lemmas about `pyIndex` -/

theorem pyIndex_nonneg {α : Type} (xs : List α) (i : Int) (h0 : 0 ≤ i) :
    pyIndex xs i = xs[i.toNat]? := by
  unfold pyIndex
  rw [if_pos h0]

theorem pyIndex_isSome {α : Type} (xs : List α) (i : Int)
    (h1 : -(xs.length : Int) ≤ i) (h2 : i < (xs.length : Int)) :
    ∃ u, pyIndex xs i = some u := by
  unfold pyIndex
  by_cases h0 : 0 ≤ i
  · rw [if_pos h0]
    have hlt : i.toNat < xs.length := by omega
    exact ⟨xs[i.toNat], List.getElem?_eq_getElem hlt⟩
  · rw [if_neg h0, if_pos (by omega)]
    have hlt : xs.length - (-i).toNat < xs.length := by omega
    exact ⟨xs[xs.length - (-i).toNat], List.getElem?_eq_getElem hlt⟩

/-! ### Injectivity of `Nat.repr` -/

theorem toDigitsCore_eq_decDigits : ∀ (f n : Nat) (acc : List Char), n < f →
    Nat.toDigitsCore 10 f n acc = decDigits n ++ acc := by
  intro f
  induction f with
  | zero => intro n acc h; omega
  | succ f ih =>
    intro n acc h
    by_cases h10 : n / 10 = 0
    · have hn : n < 10 := by omega
      rw [Nat.toDigitsCore]
      simp only [h10, if_true]
      rw [decDigits, dif_pos hn, Nat.mod_eq_of_lt hn]
      rfl
    · have hn : ¬ n < 10 := fun hc => h10 (Nat.div_eq_of_lt hc)
      rw [Nat.toDigitsCore]
      simp only [h10, if_false]
      have hf : n / 10 < f := by
        have := Nat.div_lt_self (by omega : 0 < n) (by omega : 1 < 10)
        omega
      rw [decDigits, dif_neg hn, ih (n / 10) _ hf]
      simp [List.append_assoc]

theorem repr_eq_decDigits (n : Nat) : Nat.repr n = (decDigits n).asString := by
  show (Nat.toDigits 10 n).asString = (decDigits n).asString
  rw [Nat.toDigits, toDigitsCore_eq_decDigits (n + 1) n [] (Nat.lt_succ_self n),
    List.append_nil]

theorem decCharVal_digitChar {d : Nat} (h : d < 10) : decCharVal (Nat.digitChar d) = d := by
  interval_cases d <;> rfl

theorem foldl_decDigits (n : Nat) : ∀ (init : Nat),
    (decDigits n).foldl (fun acc c => acc * 10 + decCharVal c) init
      = init * 10 ^ (decDigits n).length + n := by
  induction n using Nat.strong_induction_on with
  | _ n ih =>
    intro init
    by_cases hn : n < 10
    · rw [decDigits, dif_pos hn]
      simp [decCharVal_digitChar hn]
    · rw [decDigits, dif_neg hn, List.foldl_append]
      have hdiv : n / 10 < n := Nat.div_lt_self (by omega) (by omega)
      rw [ih (n / 10) hdiv init]
      simp only [List.foldl_cons, List.foldl_nil, List.length_append, List.length_singleton]
      rw [decCharVal_digitChar (Nat.mod_lt n (by omega))]
      rw [Nat.pow_succ]
      have : (init * 10 ^ (decDigits (n / 10)).length + n / 10) * 10 + n % 10
          = init * (10 ^ (decDigits (n / 10)).length * 10) + (10 * (n / 10) + n % 10) := by ring
      rw [this, Nat.div_add_mod]

theorem ofDec_decDigits (n : Nat) : ofDec (decDigits n) = n := by
  have := foldl_decDigits n 0
  simpa [ofDec] using this

theorem decDigits_injective : Function.Injective decDigits := by
  intro m n h
  have hm := ofDec_decDigits m
  rw [h, ofDec_decDigits n] at hm
  exact hm.symm

theorem natRepr_injective : Function.Injective Nat.repr := by
  intro m n h
  rw [repr_eq_decDigits, repr_eq_decDigits] at h
  exact decDigits_injective (congrArg String.data h)

/-! ### Lemmas about dicts, the chain map and the intersection -/

theorem hasKey_iff_mem (d : PyDict) (k : Int) :
    hasKey d k = true ↔ ∃ p ∈ d, p.1 = k := by
  simp [hasKey, List.any_eq_true]

theorem dictGet_isSome_iff (d : PyDict) (k : Int) :
    (dictGet d k).isSome = true ↔ hasKey d k = true := by
  simp [dictGet, hasKey, List.find?_isSome, List.any_eq_true]

theorem mem_of_dictGet {d : PyDict} {k : Int} {v : InnerMediaEntry}
    (h : dictGet d k = some v) : (k, v) ∈ d := by
  unfold dictGet at h
  rcases Option.map_eq_some'.mp h with ⟨p, hfind, hsnd⟩
  have hp := List.find?_some hfind
  have hmem := List.mem_of_find?_eq_some hfind
  have hk : p.1 = k := by simpa using hp
  have : p = (k, v) := by
    cases p
    simp only at hk hsnd
    simp [hk, hsnd]
  rwa [this] at hmem

theorem dictGet_eq_some_of_mem {d : PyDict} {k : Int} {v : InnerMediaEntry}
    (hnodup : (d.map Prod.fst).Nodup) (hmem : (k, v) ∈ d) : dictGet d k = some v := by
  induction d with
  | nil => simp at hmem
  | cons p rest ih =>
    rcases List.mem_cons.mp hmem with rfl | hmem'
    · simp [dictGet]
    · have hkey : p.1 ≠ k := by
        intro hk
        have : k ∈ rest.map Prod.fst := List.mem_map_of_mem Prod.fst hmem'
        rw [List.map_cons, List.nodup_cons] at hnodup
        exact hnodup.1 (hk ▸ this)
      have hrest : (rest.map Prod.fst).Nodup := by
        rw [List.map_cons, List.nodup_cons] at hnodup
        exact hnodup.2
      simp only [dictGet, List.find?_cons]
      rw [show (decide (p.1 = k)) = false from by simp [hkey]]
      exact ih hrest hmem'

theorem chainGet_isSome_of {ds : List PyDict} {k : Int}
    (h : ∃ d ∈ ds, hasKey d k = true) : ∃ v, chainGet ds k = some v := by
  induction ds with
  | nil => simp at h
  | cons d rest ih =>
    rcases h with ⟨d0, hd0, hkey⟩
    rcases List.mem_cons.mp hd0 with rfl | hmem
    · have := (dictGet_isSome_iff d0 k).mpr hkey
      rcases Option.isSome_iff_exists.mp this with ⟨v, hv⟩
      exact ⟨v, by simp [chainGet, hv]⟩
    · cases hd : dictGet d k with
      | some v => exact ⟨v, by simp [chainGet, hd]⟩
      | none =>
        rcases ih ⟨d0, hmem, hkey⟩ with ⟨v, hv⟩
        exact ⟨v, by simp [chainGet, hd, hv]⟩

theorem chainGet_mem {ds : List PyDict} {k : Int} {v : InnerMediaEntry}
    (h : chainGet ds k = some v) : ∃ d ∈ ds, dictGet d k = some v := by
  induction ds with
  | nil => simp [chainGet] at h
  | cons d rest ih =>
    rw [chainGet] at h
    split at h
    · next w hw => exact ⟨d, List.mem_cons_self d rest, by rw [hw]; exact h⟩
    · next hw =>
        rcases ih h with ⟨d0, hmem, hget⟩
        exact ⟨d0, List.mem_cons_of_mem d hmem, hget⟩

theorem mem_commonKeys (ds : List PyDict) (k : Int) :
    k ∈ commonKeys ds ↔ (∃ d ∈ ds, hasKey d k = true) ∧ ∀ d ∈ ds, hasKey d k = true := by
  unfold commonKeys
  rw [List.mem_filter, List.mem_dedup, List.mem_flatten]
  constructor
  · rintro ⟨⟨kl, hkl, hk⟩, hall⟩
    rcases List.mem_map.mp hkl with ⟨d, hd, rfl⟩
    refine ⟨⟨d, hd, ?_⟩, ?_⟩
    · rcases List.mem_map.mp hk with ⟨p, hp, hpk⟩
      exact (hasKey_iff_mem d k).mpr ⟨p, hp, hpk⟩
    · intro d0 hd0
      exact (List.all_eq_true.mp hall) d0 hd0
  · rintro ⟨⟨d, hd, hkey⟩, hall⟩
    refine ⟨⟨d.map Prod.fst, List.mem_map_of_mem _ hd, ?_⟩, ?_⟩
    · rcases (hasKey_iff_mem d k).mp hkey with ⟨p, hp, hpk⟩
      exact List.mem_map.mpr ⟨p, hp, hpk⟩
    · exact List.all_eq_true.mpr hall

theorem nodup_commonKeys (ds : List PyDict) : (commonKeys ds).Nodup :=
  (List.nodup_dedup _).filter _

theorem mem_commonResult (ds : List PyDict) (k : Int) (v : InnerMediaEntry) :
    (k, v) ∈ commonResult ds ↔ k ∈ commonKeys ds ∧ chainGet ds k = some v := by
  unfold commonResult
  rw [List.mem_filterMap]
  constructor
  · rintro ⟨a, ha, hav⟩
    rcases Option.map_eq_some'.mp hav with ⟨w, hw, hpair⟩
    have hak : a = k := congrArg Prod.fst hpair
    have hwv : w = v := congrArg Prod.snd hpair
    exact ⟨hak ▸ ha, by rw [← hak, hw, hwv]⟩
  · rintro ⟨hk, hv⟩
    exact ⟨k, hk, by rw [hv]; rfl⟩

theorem fst_mem_commonResult {ds : List PyDict} {p : Int × InnerMediaEntry}
    (h : p ∈ commonResult ds) : p.1 ∈ commonKeys ds := by
  unfold commonResult at h
  rcases List.mem_filterMap.mp h with ⟨a, ha, hav⟩
  rcases Option.map_eq_some'.mp hav with ⟨w, _, hpair⟩
  have : a = p.1 := congrArg Prod.fst hpair
  exact this ▸ ha

theorem map_fst_filterMap_sublist (l : List Int) (f : Int → Option (Int × InnerMediaEntry))
    (hf : ∀ k p, f k = some p → p.1 = k) :
    ((l.filterMap f).map Prod.fst).Sublist l := by
  induction l with
  | nil => simp
  | cons a rest ih =>
    rw [List.filterMap_cons]
    cases hfa : f a with
    | none => exact (ih).cons a
    | some p =>
      rw [List.map_cons]
      rw [hf a p hfa]
      exact ih.cons₂ a

theorem nodup_map_fst_commonResult (ds : List PyDict) :
    ((commonResult ds).map Prod.fst).Nodup := by
  refine (nodup_commonKeys ds).sublist ?_
  unfold commonResult
  refine map_fst_filterMap_sublist _ _ ?_
  intro k p hp
  rcases Option.map_eq_some'.mp hp with ⟨w, _, hpair⟩
  exact (congrArg Prod.fst hpair).symm

theorem hasKey_commonResult (ds : List PyDict) (k : Int) :
    hasKey (commonResult ds) k = true ↔ k ∈ commonKeys ds := by
  constructor
  · intro h
    rcases (hasKey_iff_mem _ k).mp h with ⟨p, hp, hpk⟩
    exact hpk ▸ fst_mem_commonResult hp
  · intro hk
    rcases chainGet_isSome_of ((mem_commonKeys ds k).mp hk).1 with ⟨v, hv⟩
    exact (hasKey_iff_mem _ k).mpr ⟨(k, v), (mem_commonResult ds k v).mpr ⟨hk, hv⟩, rfl⟩

theorem dictGet_commonResult (ds : List PyDict) (k : Int) (v : InnerMediaEntry) :
    dictGet (commonResult ds) k = some v ↔ k ∈ commonKeys ds ∧ chainGet ds k = some v := by
  constructor
  · intro h
    exact (mem_commonResult ds k v).mp (mem_of_dictGet h)
  · intro h
    exact dictGet_eq_some_of_mem (nodup_map_fst_commonResult ds)
      ((mem_commonResult ds k v).mpr h)

/-! ### Lemmas about `buildMediaEntries` and `_get_common_anime` -/

theorem buildMediaEntries_ok (data : List (Option MediaListCollection)) :
    ∀ (index : Nat), (∀ item ∈ data, blockOk item = true) →
    buildMediaEntries data index = .ok (data.map dictOfBlock) := by
  induction data with
  | nil => intro index _; rfl
  | cons item rest ih =>
    intro index h
    have hok : blockOk item = true := h item (List.mem_cons_self _ _)
    rw [buildMediaEntries, if_pos hok, ih (index + 1) (fun b hb => h b (List.mem_cons_of_mem _ hb))]
    rfl

theorem buildMediaEntries_error (data : List (Option MediaListCollection)) :
    ∀ (index i : Nat) (item : Option MediaListCollection),
    data[i]? = some item → blockOk item = false →
    (∀ j, j < i → ∀ itemj, data[j]? = some itemj → blockOk itemj = true) →
    buildMediaEntries data index = .error (index + i) := by
  induction data with
  | nil => intro index i item hi _ _; simp at hi
  | cons a rest ih =>
    intro index i item hi hbad hgood
    cases i with
    | zero =>
      have ha : a = item := by simpa using hi
      rw [buildMediaEntries, if_neg (by rw [ha, hbad]; simp), Nat.add_zero]
    | succ i' =>
      have ha : blockOk a = true := hgood 0 (Nat.succ_pos i') a (by simp)
      have hi' : rest[i']? = some item := by simpa using hi
      have hgood' : ∀ j, j < i' → ∀ itemj, rest[j]? = some itemj → blockOk itemj = true := by
        intro j hj itemj hjget
        exact hgood (j + 1) (by omega) itemj (by simpa using hjget)
      rw [buildMediaEntries, if_pos ha, ih (index + 1) i' item hi' hbad hgood']
      have : index + 1 + i' = index + (i' + 1) := by omega
      rw [this]

theorem get_common_anime_ok (data : List (Option MediaListCollection))
    (h : ∀ item ∈ data, blockOk item = true) :
    _get_common_anime data = .ok (commonResult (data.map dictOfBlock)) := by
  unfold _get_common_anime
  rw [buildMediaEntries_ok data 0 h]

/-! ### Lemmas about the error mapper -/

theorem linesPerBlock_eq : linesPerBlock = 16 := by decide

theorem handleErrorLocations_eq_spec (users : List String) (locs : List AnilistErrorLocation) :
    ∀ acc, handleErrorLocations users locs acc
      = (specMapLocations users locs).map (fun l => acc ++ l) := by
  induction locs with
  | nil => intro acc; simp [handleErrorLocations, specMapLocations]
  | cons loc rest ih =>
    intro acc
    rw [handleErrorLocations, specMapLocations]
    cases hidx : pyIndex users (Int.fdiv (loc.line - 4) (linesPerBlock : Int)) with
    | none =>
      cases hrest : specMapLocations users rest with
      | none => rfl
      | some l => rfl
    | some u =>
      have hih := ih (acc ++ [u])
      cases hrest : specMapLocations users rest with
      | none =>
        rw [hrest] at hih
        simp only [Option.map_none'] at hih
        simpa using hih
      | some l =>
        rw [hrest] at hih
        simp only [Option.map_some'] at hih
        simpa [List.append_assoc] using hih

theorem handleErrorsAux_eq_spec (users : List String) (errors : List AnilistError) :
    ∀ acc, handleErrorsAux users errors acc
      = (specMapErrors users errors).map (fun l => acc ++ l) := by
  induction errors with
  | nil => intro acc; simp [handleErrorsAux, specMapErrors]
  | cons err rest ih =>
    intro acc
    rw [handleErrorsAux, specMapErrors]
    by_cases hq : err.message = "User not found" ∧ err.status = 404
    · rw [if_pos hq, if_pos hq, handleErrorLocations_eq_spec users err.locations acc]
      cases hl : specMapLocations users err.locations with
      | none => rfl
      | some l1 =>
        simp only [Option.map_some']
        rw [ih (acc ++ l1)]
        cases hr : specMapErrors users rest with
        | none => rfl
        | some l2 => simp
    · rw [if_neg hq, if_neg hq]
      exact ih acc

theorem handleErrorLocations_isSome (users : List String) (locs : List AnilistErrorLocation)
    (hne : users ≠ [])
    (hloc : ∀ loc ∈ locs, 1 ≤ loc.line ∧ loc.line < 4 + (linesPerBlock : Int) * users.length) :
    ∀ acc, ∃ l, handleErrorLocations users locs acc = some l := by
  induction locs with
  | nil => intro acc; exact ⟨acc, rfl⟩
  | cons loc rest ih =>
    intro acc
    have hbounds := hloc loc (List.mem_cons_self _ _)
    have hlen : 1 ≤ (users.length : Int) := by
      have : users.length ≠ 0 := fun h => hne (List.length_eq_zero.mp h)
      omega
    have hLB : linesPerBlock = 16 := linesPerBlock_eq
    have hfd : Int.fdiv (loc.line - 4) (linesPerBlock : Int)
        = (loc.line - 4) / (linesPerBlock : Int) := by
      exact Int.fdiv_eq_ediv _ (by rw [hLB]; omega)
    have hlow : -1 ≤ (loc.line - 4) / (linesPerBlock : Int) := by
      rw [hLB]
      rw [show ((16 : Nat) : Int) = (16 : Int) from rfl]
      rw [Int.le_ediv_iff_mul_le (by omega)]
      omega
    have hhigh : (loc.line - 4) / (linesPerBlock : Int) < (users.length : Int) := by
      rw [hLB] at hbounds ⊢
      rw [show ((16 : Nat) : Int) = (16 : Int) from rfl] at hbounds ⊢
      rw [Int.ediv_lt_iff_lt_mul (by omega)]
      omega
    obtain ⟨u, hu⟩ := pyIndex_isSome users (Int.fdiv (loc.line - 4) (linesPerBlock : Int))
      (by rw [hfd]; omega) (by rw [hfd]; omega)
    rw [handleErrorLocations, hu]
    exact ih (fun l hl => hloc l (List.mem_cons_of_mem _ hl)) (acc ++ [u])

theorem handleErrorsAux_isSome (users : List String) (errors : List AnilistError)
    (hne : users ≠ [])
    (herr : ∀ e ∈ errors, e.message = "User not found" → e.status = 404 →
      ∀ loc ∈ e.locations, 1 ≤ loc.line ∧ loc.line < 4 + (linesPerBlock : Int) * users.length) :
    ∀ acc, ∃ l, handleErrorsAux users errors acc = some l := by
  induction errors with
  | nil => intro acc; exact ⟨acc, rfl⟩
  | cons err rest ih =>
    intro acc
    rw [handleErrorsAux]
    by_cases hq : err.message = "User not found" ∧ err.status = 404
    · rw [if_pos hq]
      obtain ⟨l, hl⟩ := handleErrorLocations_isSome users err.locations hne
        (herr err (List.mem_cons_self _ _) hq.1 hq.2) acc
      rw [hl]
      exact ih (fun e he => herr e (List.mem_cons_of_mem _ he)) l
    · rw [if_neg hq]
      exact ih (fun e he => herr e (List.mem_cons_of_mem _ he)) acc

/-! ### Shape congruence for the aggregator -/

theorem blockOk_of_shape {item item' : Option MediaListCollection}
    (h : blockShape item = blockShape item') : blockOk item = blockOk item' := by
  cases item with
  | none => cases item' with
    | none => rfl
    | some c' => simp [blockShape] at h
  | some c =>
    cases item' with
    | none => simp [blockShape] at h
    | some c' =>
      simp only [blockShape, Option.map_some', Option.some.injEq] at h
      cases hc : c.lists with
      | nil =>
        cases hc' : c'.lists with
        | nil => simp [blockOk, hc, hc']
        | cons l0' t' => rw [hc, hc'] at h; simp at h
      | cons l0 t =>
        cases hc' : c'.lists with
        | nil => rw [hc, hc'] at h; simp at h
        | cons l0' t' => simp [blockOk, hc, hc']

theorem dictOfBlock_of_shape {item item' : Option MediaListCollection}
    (h : blockShape item = blockShape item') : dictOfBlock item = dictOfBlock item' := by
  cases item with
  | none => cases item' with
    | none => rfl
    | some c' => simp [blockShape] at h
  | some c =>
    cases item' with
    | none => simp [blockShape] at h
    | some c' =>
      simp only [blockShape, Option.map_some', Option.some.injEq] at h
      cases hc : c.lists with
      | nil =>
        cases hc' : c'.lists with
        | nil => simp [dictOfBlock, hc, hc']
        | cons l0' t' => rw [hc, hc'] at h; simp at h
      | cons l0 t =>
        cases hc' : c'.lists with
        | nil => rw [hc, hc'] at h; simp at h
        | cons l0' t' =>
          rw [hc, hc'] at h
          simp only [List.head?_cons, Option.some.injEq] at h
          simp [dictOfBlock, hc, hc', h]

theorem buildMediaEntries_of_shape (data : List (Option MediaListCollection)) :
    ∀ (data' : List (Option MediaListCollection)) (index : Nat),
    data.map blockShape = data'.map blockShape →
    buildMediaEntries data index = buildMediaEntries data' index := by
  induction data with
  | nil =>
    intro data' index h
    have : data' = [] := by
      cases data' with
      | nil => rfl
      | cons a t => simp at h
    rw [this]
  | cons a rest ih =>
    intro data' index h
    cases data' with
    | nil => simp at h
    | cons a' rest' =>
      simp only [List.map_cons, List.cons.injEq] at h
      obtain ⟨h1, h2⟩ := h
      simp only [buildMediaEntries]
      rw [blockOk_of_shape h1, dictOfBlock_of_shape h1, ih rest' (index + 1) h2]

/-! ### Lemmas about the query builder's variables mapping -/

theorem usernameKey_inj {m n : Nat}
    (h : "username" ++ Nat.repr m = "username" ++ Nat.repr n) : m = n := by
  apply natRepr_injective
  have hd := congrArg String.data h
  rw [String.data_append, String.data_append] at hd
  have hcancel := List.append_cancel_left hd
  exact congrArg String.mk hcancel

theorem usernameKey_ne_status (n : Nat) : "username" ++ Nat.repr n ≠ "status" := by
  intro h
  have hlen := congrArg String.length h
  rw [String.length_append] at hlen
  have h8 : ("username" : String).length = 8 := rfl
  have h6 : ("status" : String).length = 6 := rfl
  rw [h8, h6] at hlen
  omega

theorem lookupVar_usernameKey (l : List String) :
    ∀ (i0 n : Nat) (u : String) (tail : List (String × String)), l[n]? = some u →
    lookupVar ((List.enumFrom i0 l).map (fun p => ("username" ++ Nat.repr p.1, p.2)) ++ tail)
      ("username" ++ Nat.repr (i0 + n)) = some u := by
  induction l with
  | nil => intro i0 n u tail h; simp at h
  | cons x rest ih =>
    intro i0 n u tail h
    cases n with
    | zero =>
      have hx : x = u := by simpa using h
      rw [Nat.add_zero]
      simp only [List.enumFrom, List.map_cons, List.cons_append, lookupVar]
      rw [List.find?_cons_of_pos _ (by simp)]
      simp [hx]
    | succ n' =>
      have hne : ("username" ++ Nat.repr i0) ≠ ("username" ++ Nat.repr (i0 + (n' + 1))) := by
        intro hkey
        have := usernameKey_inj hkey
        omega
      simp only [List.enumFrom, List.map_cons, List.cons_append, lookupVar]
      rw [List.find?_cons_of_neg _ (by simp [hne])]
      have hrest : rest[n']? = some u := by simpa using h
      have := ih (i0 + 1) n' u tail hrest
      rw [show i0 + 1 + n' = i0 + (n' + 1) from by omega] at this
      exact this

theorem lookupVar_statusKey (l : List String) :
    ∀ (i0 : Nat) (v : String),
    lookupVar ((List.enumFrom i0 l).map (fun p => ("username" ++ Nat.repr p.1, p.2))
      ++ [("status", v)]) "status" = some v := by
  induction l with
  | nil => intro i0 v; simp [lookupVar]
  | cons x rest ih =>
    intro i0 v
    simp only [List.enumFrom, List.map_cons, List.cons_append, lookupVar]
    rw [List.find?_cons_of_neg _ (by simp [usernameKey_ne_status i0])]
    exact ih (i0 + 1) v

/-! ### Value-consistency helper and permutation transfer -/

theorem dictsAgree_sound {d1 d2 : PyDict} (h : dictsAgree d1 d2 = true)
    {k : Int} {v1 v2 : InnerMediaEntry}
    (h1 : dictGet d1 k = some v1) (h2 : dictGet d2 k = some v2) : v1 = v2 := by
  have hmem := mem_of_dictGet h1
  have hp := List.all_eq_true.mp h (k, v1) hmem
  have hkey : hasKey d2 k = true := (dictGet_isSome_iff d2 k).mp (by rw [h2]; rfl)
  simp only [hkey, Bool.not_true, Bool.false_or] at hp
  have : dictGet d2 k = some v1 := by simpa using hp
  rw [h2] at this
  exact (Option.some.injEq _ _ ▸ this).symm

theorem mem_commonKeys_of_perm {ds ds' : List PyDict} (hp : ds.Perm ds') {k : Int} :
    k ∈ commonKeys ds ↔ k ∈ commonKeys ds' := by
  rw [mem_commonKeys, mem_commonKeys]
  constructor <;> rintro ⟨⟨d, hd, hk⟩, hall⟩
  · exact ⟨⟨d, hp.mem_iff.mp hd, hk⟩, fun d0 hd0 => hall d0 (hp.mem_iff.mpr hd0)⟩
  · exact ⟨⟨d, hp.mem_iff.mpr hd, hk⟩, fun d0 hd0 => hall d0 (hp.mem_iff.mp hd0)⟩

/-! ### Unfolding the no-upstream-errors branch of the handler -/

theorem get_matches_render_no_errors (users : List String) (st : Status)
    (data : List (Option MediaListCollection)) :
    get_matches_render users st ⟨none, data⟩
      = match _get_common_anime data with
        | .error i =>
          match users[i]? with
          | none => none
          | some u =>
            some (404, .text ("Sorry, but " ++ u ++ " has no " ++ pyLower st.value
              ++ " entries!"))
        | .ok m =>
          if m.isEmpty then
            some (404, .text ("No " ++ pyLower st.value ++ " anime in common :("))
          else some (200, .template "page.html") := rfl

/-! ### Claim theorems -/

/-- Claim C3: for every ordered user list and every upstream error list, the
error mapper `_handle_errors` computes, for each location of each 404
"User not found" error, `userIndex = (location.line - 4) div linesPerBlock`
(with `linesPerBlock = len(USER_QUERY.splitlines())`) and appends
`users[userIndex]`; i.e. it coincides with the location-by-location spec
mapper `specMapErrors`. -/
theorem handle_errors_spec_refinement (errors : List AnilistError) (users : List String) :
    _handle_errors errors users = specMapErrors users errors := by
  rw [_handle_errors, handleErrorsAux_eq_spec users errors []]
  cases h : specMapErrors users errors <;> simp

/-- Witness for C3, also checking the claim's round trip: in the query built
for users `["foo","bar","baz"]`, line 20 (index 19) is `bar`'s aliased
sub-query head, and a 404 "User not found" error at line 20 is attributed to
exactly `["bar"]`. -/
theorem handle_errors_spec_refinement_witness :
    (pySplitlines (_fetch_user_entries_query ["foo", "bar", "baz"]))[19]?
        = some "user1: MediaListCollection(userName: $username1, status: $status, type: ANIME) \x7b"
      ∧ _handle_errors [sampleNotFound 20] ["foo", "bar", "baz"] = some ["bar"] := by
  refine ⟨by decide, ?_⟩
  rw [handle_errors_spec_refinement [sampleNotFound 20] ["foo", "bar", "baz"]]
  decide

/-- Claim C5: the `get_matches` validation pipeline case-folds every input
username, deduplicates, and fails with `TooLittleUsers` whenever fewer than 2
unique usernames remain. -/
theorem validate_caseFold_dedup_tooFew (usernames : List String)
    (h : (pySet (usernames.map pyLower)).length < 2) :
    get_matches_validate usernames = .error .tooLittleUsers := by
  unfold get_matches_validate get_matches_users _parse_users
  rw [pySet_idem, if_pos h]

/-- Witness for C5: `validate(["A","a"])` fails with `TooFewUsers`. -/
theorem validate_caseFold_dedup_tooFew_witness :
    (pySet (["A", "a"].map pyLower)).length < 2
      ∧ get_matches_validate ["A", "a"] = .error .tooLittleUsers :=
  ⟨by decide, validate_caseFold_dedup_tooFew ["A", "a"] (by decide)⟩

/-- Claim C6 (code bug exhibit): status resolution is a case-insensitive
lookup by member name, so "Planning"/"PLANNING"/"planning" all resolve to the
same member and "watching" fails; the failure payload of
`get_matches_headless` enumerates all six accepted names, but its `error`
string is the constant literal `"Invalid status provided: {data.status!r}"`
(the `f` prefix is missing in the source), so the offending text is never
reported. -/
theorem status_resolution_payload_bug :
    resolveStatus "Planning" = some .planning
      ∧ resolveStatus "PLANNING" = some .planning
      ∧ resolveStatus "planning" = some .planning
      ∧ resolveStatus "watching" = none
      ∧ (headlessInvalidStatusPayload "watching").accepted_statuses
          = ["planning", "current", "completed", "dropped", "paused", "repeating"]
      ∧ (headlessInvalidStatusPayload "watching").error
          = "Invalid status provided: \x7bdata.status!r\x7d"
      ∧ (headlessInvalidStatusPayload "watching").error
          = (headlessInvalidStatusPayload "PLANNING").error := by
  decide

/-- Claim C7 counterexample: a 404 "User not found" error whose location lies
beyond the last user's sub-query block (line 36 is the closing brace of the
query built for 2 users) makes `_handle_errors` raise `IndexError` (modelled
as `none`) for the non-empty user list `["foo","bar"]`, instead of returning
a list of usernames. -/
theorem map_errors_unhandled_counterexample :
    _handle_errors [sampleNotFound 36] ["foo", "bar"] = none
      ∧ (["foo", "bar"] : List String) ≠ [] := by
  decide

/-- Claim C7 (amended): for every error list and non-empty user list,
`_handle_errors` returns a list of usernames without raising provided every
404 "User not found" location lies on a line of the generated query strictly
before the trailing closer, i.e. `1 ≤ line < 4 + linesPerBlock * N`; lines
below the fixed header floor-divide to index `-1` and name the last user via
Python negative indexing.  (A qualifying location at or beyond
`4 + linesPerBlock * N` raises `IndexError`, as the counterexample shows.) -/
theorem map_errors_no_raise_within_region (errors : List AnilistError) (users : List String)
    (hne : users ≠ [])
    (herr : ∀ e ∈ errors, e.message = "User not found" → e.status = 404 →
      ∀ loc ∈ e.locations, 1 ≤ loc.line ∧ loc.line < 4 + (linesPerBlock : Int) * users.length) :
    ∃ l, _handle_errors errors users = some l :=
  handleErrorsAux_isSome users errors hne herr []

/-- Witness for C7's amended statement: an error with locations both below the
header (line 2) and inside a block (line 20) is mapped without raising. -/
theorem map_errors_no_raise_within_region_witness :
    ∃ l, _handle_errors [sampleNotFound 2, sampleNotFound 20] ["foo", "bar"] = some l :=
  map_errors_no_raise_within_region [sampleNotFound 2, sampleNotFound 20] ["foo", "bar"]
    (by decide) (by decide)

/-- Claim C1 counterexample: with two non-empty disjoint per-user lists the
aggregation succeeds with an empty mapping, yet `get_matches` renders status
404 (not 200) with the empty-state message. -/
theorem emptyIntersection_renders_404_counterexample :
    _get_common_anime sampleDisjointData = .ok []
      ∧ get_matches_render ["foo", "bar"] .planning ⟨none, sampleDisjointData⟩
          = some (404, .text "No planning anime in common :(") := by
  decide

/-- Claim C1 (amended): when aggregation succeeds with an empty intersection
the outcome is a valid non-error result, and the HTTP layer renders status
404 — not 200 — with the empty-state message
`"No <status> anime in common :("`. -/
theorem emptyIntersection_renders_404 (users : List String) (st : Status)
    (data : List (Option MediaListCollection))
    (h : _get_common_anime data = .ok []) :
    get_matches_render users st ⟨none, data⟩
      = some (404, .text ("No " ++ pyLower st.value ++ " anime in common :(")) := by
  rw [get_matches_render_no_errors, h]
  simp

/-- Witness for C1's amended statement. -/
theorem emptyIntersection_renders_404_witness :
    _get_common_anime sampleDisjointDataSwapped = .ok []
      ∧ get_matches_render ["alice", "bob"] .current ⟨none, sampleDisjointDataSwapped⟩
          = some (404, .text ("No " ++ pyLower Status.current.value ++ " anime in common :(")) :=
  ⟨by decide, emptyIntersection_renders_404 ["alice", "bob"] .current
    sampleDisjointDataSwapped (by decide)⟩

/-- Claim C4: if the block at position `i` is null or has an empty
list-of-lists and every earlier block passes, `_get_common_anime` fails with
`EmptyAnimeList i` — the index into the ordered user sequence — and the
rendered failure names `users[i]`. -/
theorem aggregate_empty_list_fails (data : List (Option MediaListCollection)) (i : Nat)
    (item : Option MediaListCollection) (hi : data[i]? = some item)
    (hbad : blockOk item = false)
    (hgood : ∀ j, j < i → ∀ itemj, data[j]? = some itemj → blockOk itemj = true) :
    _get_common_anime data = .error i
      ∧ ∀ (users : List String) (st : Status) (u : String), users[i]? = some u →
          get_matches_render users st ⟨none, data⟩
            = some (404, .text ("Sorry, but " ++ u ++ " has no " ++ pyLower st.value
                ++ " entries!")) := by
  have herr : _get_common_anime data = .error i := by
    unfold _get_common_anime
    rw [buildMediaEntries_error data 0 i item hi hbad hgood, Nat.zero_add]
  refine ⟨herr, ?_⟩
  intro users st u hu
  rw [get_matches_render_no_errors, herr]
  simp [hu]

/-- Witness for C4: for users `["foo","bar"]` with `foo`'s filtered list
empty, the failure is `EmptyAnimeList 0` and the rendering names `foo`,
not `bar`. -/
theorem aggregate_empty_list_fails_witness :
    _get_common_anime sampleEmptyFirstData = .error 0
      ∧ get_matches_render ["foo", "bar"] .planning ⟨none, sampleEmptyFirstData⟩
          = some (404, .text ("Sorry, but " ++ "foo" ++ " has no "
              ++ pyLower Status.planning.value ++ " entries!")) := by
  have h := aggregate_empty_list_fails sampleEmptyFirstData 0 (some ⟨[]⟩) (by decide) (by decide)
    (fun j hj itemj _ => absurd hj (Nat.not_lt_zero j))
  exact ⟨h.1, h.2 ["foo", "bar"] .planning "foo" (by decide)⟩

/-- Claim C2: when every block is non-null with a non-empty list-of-lists,
`_get_common_anime` returns a mapping whose key set is exactly the
intersection of all per-user key sets, each key mapped to that identifier's
entry from some contributing user; disjoint per-user lists thus give an
empty mapping, not a failure. -/
theorem aggregate_intersection_spec (data : List (Option MediaListCollection))
    (h1 : ∀ item ∈ data, blockOk item = true) (h2 : data ≠ []) :
    ∃ m, _get_common_anime data = .ok m
      ∧ (∀ k, hasKey m k = true ↔ ∀ item ∈ data, blockHasId item k = true)
      ∧ (∀ k v, dictGet m k = some v → ∃ item ∈ data, blockGet item k = some v)
      ∧ (2 ≤ data.length →
          data.Pairwise (fun b1 b2 => ∀ k, blockHasId b1 k = true → blockHasId b2 k = false) →
          m = []) := by
  have hiff : ∀ k, hasKey (commonResult (data.map dictOfBlock)) k = true
      ↔ ∀ item ∈ data, blockHasId item k = true := by
    intro k
    rw [hasKey_commonResult, mem_commonKeys]
    constructor
    · rintro ⟨_, hall⟩ item hitem
      exact hall (dictOfBlock item) (List.mem_map_of_mem _ hitem)
    · intro hall
      constructor
      · cases data with
        | nil => exact absurd rfl h2
        | cons a rest =>
          exact ⟨dictOfBlock a, List.mem_map_of_mem _ (List.mem_cons_self a rest),
            hall a (List.mem_cons_self a rest)⟩
      · intro d hd
        rcases List.mem_map.mp hd with ⟨item, hitem, rfl⟩
        exact hall item hitem
  have hprov : ∀ k v, dictGet (commonResult (data.map dictOfBlock)) k = some v →
      ∃ item ∈ data, blockGet item k = some v := by
    intro k v hkv
    have hmem := (dictGet_commonResult _ k v).mp hkv
    rcases chainGet_mem hmem.2 with ⟨d, hd, hget⟩
    rcases List.mem_map.mp hd with ⟨item, hitem, rfl⟩
    exact ⟨item, hitem, hget⟩
  refine ⟨commonResult (data.map dictOfBlock), get_common_anime_ok data h1, hiff, hprov, ?_⟩
  intro hlen hpw
  apply List.eq_nil_iff_forall_not_mem.mpr
  intro p hp
  have hkm : hasKey (commonResult (data.map dictOfBlock)) p.1 = true :=
    (hasKey_iff_mem _ p.1).mpr ⟨p, hp, rfl⟩
  have hall : ∀ item ∈ data, blockHasId item p.1 = true := (hiff p.1).mp hkm
  cases data with
  | nil => exact absurd rfl h2
  | cons b1 rest =>
    cases rest with
    | nil => simp at hlen
    | cons b2 rest2 =>
      have hR := (List.pairwise_cons.mp hpw).1 b2 (List.mem_cons_self _ _)
      have h1b := hall b1 (List.mem_cons_self _ _)
      have h2b := hall b2 (List.mem_cons_of_mem _ (List.mem_cons_self _ _))
      rw [hR p.1 h1b] at h2b
      exact Bool.false_ne_true h2b

/-- Witness for C2 at two disjoint per-user lists. -/
theorem aggregate_intersection_spec_witness :
    (∀ item ∈ sampleDisjointData, blockOk item = true) ∧ sampleDisjointData ≠ []
      ∧ ∃ m, _get_common_anime sampleDisjointData = .ok m
          ∧ (∀ k, hasKey m k = true ↔ ∀ item ∈ sampleDisjointData, blockHasId item k = true)
          ∧ (∀ k v, dictGet m k = some v →
              ∃ item ∈ sampleDisjointData, blockGet item k = some v)
          ∧ (2 ≤ sampleDisjointData.length →
              sampleDisjointData.Pairwise
                (fun b1 b2 => ∀ k, blockHasId b1 k = true → blockHasId b2 k = false) →
              m = []) :=
  ⟨by decide, by decide,
    aggregate_intersection_spec sampleDisjointData (by decide) (by decide)⟩

/-- Claim C8: the query builder is deterministic (the query text and variables
are functions of the ordered user list and status), and its variables mapping
binds `username{N}` to the `N`-th user for every `N` plus `status` to the
resolved status's all-uppercase wire value. -/
theorem query_builder_deterministic_variables (usernames : List String) (st : Status) :
    (∀ (n : Nat) (u : String), usernames[n]? = some u →
      lookupVar (_fetch_user_entries_variables usernames st) ("username" ++ Nat.repr n)
        = some u)
    ∧ lookupVar (_fetch_user_entries_variables usernames st) "status" = some st.value
    ∧ (∀ c ∈ (Status.value st).data, c.isUpper = true)
    ∧ ∀ (usernames2 : List String) (st2 : Status), usernames = usernames2 → st = st2 →
        _fetch_user_entries_query usernames = _fetch_user_entries_query usernames2
          ∧ _fetch_user_entries_variables usernames st
              = _fetch_user_entries_variables usernames2 st2 := by
  refine ⟨?_, ?_, ?_, ?_⟩
  · intro n u hu
    have h := lookupVar_usernameKey usernames 0 n u [("status", st.value)] hu
    rw [Nat.zero_add] at h
    exact h
  · exact lookupVar_statusKey usernames 0 st.value
  · cases st <;> decide
  · intro us2 st2 h1 h2
    subst h1
    subst h2
    exact ⟨rfl, rfl⟩

/-- Witness for C8: for users `["foo","bar"]` with status `current`, the
variables mapping binds `username1` to `"bar"` and `status` to `"CURRENT"`. -/
theorem query_builder_deterministic_variables_witness :
    lookupVar (_fetch_user_entries_variables ["foo", "bar"] .current)
        ("username" ++ Nat.repr 1) = some "bar"
      ∧ lookupVar (_fetch_user_entries_variables ["foo", "bar"] .current) "status"
          = some "CURRENT" :=
  ⟨(query_builder_deterministic_variables ["foo", "bar"] .current).1 1 "bar" (by decide),
    (query_builder_deterministic_variables ["foo", "bar"] .current).2.1⟩

/-- Claim C9: when every block passes the empty-list check and entries for the
same media identifier are identical across users, permuting the users (with
their blocks) yields a result mapping with the same content: equal lookups at
every key, hence the same key set and entries. -/
theorem aggregate_perm_invariant (data data' : List (Option MediaListCollection))
    (hperm : data.Perm data')
    (h1 : ∀ item ∈ data, blockOk item = true)
    (hcons : ∀ b1 ∈ data, ∀ b2 ∈ data, ∀ (k : Int) (v1 v2 : InnerMediaEntry),
      blockGet b1 k = some v1 → blockGet b2 k = some v2 → v1 = v2) :
    ∃ m m', _get_common_anime data = .ok m ∧ _get_common_anime data' = .ok m'
      ∧ ∀ k, dictGet m k = dictGet m' k := by
  have h1' : ∀ item ∈ data', blockOk item = true := fun item h => h1 item (hperm.mem_iff.mpr h)
  have hds : (data.map dictOfBlock).Perm (data'.map dictOfBlock) := hperm.map _
  refine ⟨_, _, get_common_anime_ok data h1, get_common_anime_ok data' h1', ?_⟩
  intro k
  by_cases hk : k ∈ commonKeys (data.map dictOfBlock)
  · have hk' : k ∈ commonKeys (data'.map dictOfBlock) := (mem_commonKeys_of_perm hds).mp hk
    rcases chainGet_isSome_of ((mem_commonKeys _ k).mp hk).1 with ⟨v, hv⟩
    rcases chainGet_isSome_of ((mem_commonKeys _ k).mp hk').1 with ⟨v', hv'⟩
    rcases chainGet_mem hv with ⟨d1, hd1, hg1⟩
    rcases chainGet_mem hv' with ⟨d2, hd2, hg2⟩
    have hd2' : d2 ∈ data.map dictOfBlock := hds.mem_iff.mpr hd2
    rcases List.mem_map.mp hd1 with ⟨b1, hb1, rfl⟩
    rcases List.mem_map.mp hd2' with ⟨b2, hb2, rfl⟩
    have hvv : v = v' := hcons b1 hb1 b2 hb2 k v v' hg1 hg2
    rw [(dictGet_commonResult _ k v).mpr ⟨hk, hv⟩,
      (dictGet_commonResult _ k v').mpr ⟨hk', hv'⟩, hvv]
  · have hk' : k ∉ commonKeys (data'.map dictOfBlock) :=
      fun h => hk ((mem_commonKeys_of_perm hds).mpr h)
    have e1 : dictGet (commonResult (data.map dictOfBlock)) k = none := by
      cases he : dictGet (commonResult (data.map dictOfBlock)) k with
      | none => rfl
      | some v => exact absurd ((dictGet_commonResult _ k v).mp he).1 hk
    have e2 : dictGet (commonResult (data'.map dictOfBlock)) k = none := by
      cases he : dictGet (commonResult (data'.map dictOfBlock)) k with
      | none => rfl
      | some v => exact absurd ((dictGet_commonResult _ k v).mp he).1 hk'
    rw [e1, e2]

/-- Value-consistency of the disjoint sample data, discharged through the
decidable `dictsAgree` check. -/
theorem sampleDisjointData_consistent :
    ∀ b1 ∈ sampleDisjointData, ∀ b2 ∈ sampleDisjointData,
    ∀ (k : Int) (v1 v2 : InnerMediaEntry),
      blockGet b1 k = some v1 → blockGet b2 k = some v2 → v1 = v2 := by
  intro b1 hb1 b2 hb2 k v1 v2 h1 h2
  simp only [sampleDisjointData, List.mem_cons, List.not_mem_nil, or_false] at hb1 hb2
  rcases hb1 with rfl | rfl <;> rcases hb2 with rfl | rfl <;>
    exact dictsAgree_sound (by decide) h1 h2

/-- Witness for C9: swapping the two users of the disjoint sample yields a
result with identical lookups. -/
theorem aggregate_perm_invariant_witness :
    ∃ m m', _get_common_anime sampleDisjointData = .ok m
      ∧ _get_common_anime sampleDisjointDataSwapped = .ok m'
      ∧ ∀ k, dictGet m k = dictGet m' k :=
  aggregate_perm_invariant sampleDisjointData sampleDisjointDataSwapped
    (List.Perm.swap _ _ _) (by decide) sampleDisjointData_consistent

/-- Claim C10: `_get_common_anime` reads only each block's nullness and first
list (`lists[0]`): two responses whose blocks agree on that shape produce
identical outcomes, so entries appearing solely in later lists never
contribute. -/
theorem aggregate_first_list_only (data data' : List (Option MediaListCollection))
    (h : data.map blockShape = data'.map blockShape) :
    _get_common_anime data = _get_common_anime data' := by
  unfold _get_common_anime
  rw [buildMediaEntries_of_shape data data' 0 h]

/-- Witness for C10: adding a second list with a fresh entry to a block does
not change the aggregation outcome. -/
theorem aggregate_first_list_only_witness :
    sampleTwoListsData.map blockShape = sampleOneListData.map blockShape
      ∧ _get_common_anime sampleTwoListsData = _get_common_anime sampleOneListData :=
  ⟨by decide, aggregate_first_list_only sampleTwoListsData sampleOneListData (by decide)⟩
